import Mathlib

/-!
Verification of the polymarket-trading-bot core (order gate, position ledger,
arbitrage detection/execution, copy-trading mirroring) against its
natural-language specification.

The embedding models decimal price/size strings by their exact rational
values (the source uses big.js arbitrary-precision decimals for validation
and min/plus/minus arithmetic, which are exact on these operations).
Network calls are modelled by explicit call traces; thrown errors by Except.
-/

namespace PolymarketBot

/-- Order side, from src/types/polymarket.ts. -/
inductive Side where
  | buy
  | sell
deriving DecidableEq, Repr

/-- An order-book level / resting order, from src/types/polymarket.ts.
Price and size are decimal strings in the source; modelled by their exact
rational values. -/
structure Order where
  id : String
  market : String
  outcome : String
  side : Side
  price : ℚ
  size : ℚ
  timestamp : ℤ
deriving DecidableEq, Repr

/-- An order book: two unordered collections of levels. -/
structure OrderBook where
  market : String
  bids : List Order
  asks : List Order
deriving DecidableEq, Repr

/-- A trade event record, from src/types/polymarket.ts. -/
structure Trade where
  id : String
  market : String
  outcome : String
  side : Side
  price : ℚ
  size : ℚ
  timestamp : ℤ
  taker : String
  maker : String
deriving DecidableEq, Repr

/-- A position entry, from src/types/polymarket.ts. -/
structure Position where
  market : String
  outcome : String
  side : String
  size : ℚ
  averagePrice : ℚ
  unrealizedPnl : ℚ
  realizedPnl : ℚ
deriving DecidableEq, Repr

/-- Parameters of an order submitted to the API (CreateOrderParams). -/
structure CreateOrderParams where
  market : String
  outcome : String
  side : Side
  price : ℚ
  size : ℚ
deriving DecidableEq, Repr

/-- The config.trading section of src/config/config.ts. -/
structure TradingConfig where
  minOrderSize : ℚ
  maxOrderSize : ℚ
  defaultSlippage : ℚ
  maxPositions : ℕ
deriving DecidableEq, Repr

/-- The config.copyTrading section (the fields the trading logic reads). -/
structure CopyTradingConfig where
  minConfidence : ℚ
  maxPositionSize : ℚ
deriving DecidableEq, Repr

/-- The config.arbitrage section (the fields the trading logic reads). -/
structure ArbitrageConfig where
  minProfitMargin : ℚ
  maxPositionSize : ℚ
deriving DecidableEq, Repr

/-- A network write/read issued by the bot, recorded as a trace event. -/
inductive ApiCall where
  | createOrder (params : CreateOrderParams)
  | getPositions (address : String)
deriving DecidableEq, Repr

/--
BaseTradingBot.placeOrder (src/bots/base-trading-bot.ts lines 101-139).
Validates size against config.trading.minOrderSize / maxOrderSize and price
against the closed interval from 0 to 1, throwing before any network call on
violation; on acceptance it forwards the params to api.createOrder and then
refreshes positions. The returned list is the trace of API calls issued.
-/
def placeOrder (tc : TradingConfig) (accountAddress : String)
    (params : CreateOrderParams) :
    Except String CreateOrderParams × List ApiCall :=
  if params.size < tc.minOrderSize then
    (Except.error "Order size is below minimum", [])
  else if tc.maxOrderSize < params.size then
    (Except.error "Order size exceeds maximum", [])
  else if params.price < 0 ∨ 1 < params.price then
    (Except.error "Invalid price. Must be between 0 and 1", [])
  else
    (Except.ok params,
      [ApiCall.createOrder params, ApiCall.getPositions accountAddress])

/--
The key under which the position ledger stores an entry:
market + "-" + outcome (src/bots/base-trading-bot.ts line 44 and line 58).
-/
def positionKey (market outcome : String) : String :=
  market ++ "-" ++ outcome

/-- One Map.set insertion of a position under positionKey; a later insert
with the same key overwrites an earlier one (JS Map.set semantics). -/
def positionMapStep (acc : String → Option Position) (p : Position) :
    String → Option Position :=
  fun k => if k = positionKey p.market p.outcome then some p else acc k

/--
The in-memory position map rebuilt by refreshPositions from a fetched
position list (src/bots/base-trading-bot.ts lines 42-46): the map is
cleared and each position is inserted under its key in order.
-/
def buildPositionMap (ps : List Position) : String → Option Position :=
  ps.foldl positionMapStep (fun _ => none)

/--
BaseTradingBot.refreshPositions (src/bots/base-trading-bot.ts lines 39-52).
The fetch result is passed in; on fetch failure the error is rethrown and
the old map is untouched (the clear happens only after a successful fetch),
on success the map is replaced wholesale.
-/
def refreshPositions (fetched : Except String (List Position))
    (oldMap : String → Option Position) :
    Except String Unit × (String → Option Position) :=
  match fetched with
  | Except.error e => (Except.error e, oldMap)
  | Except.ok ps => (Except.ok (), buildPositionMap ps)

/--
BaseTradingBot.getPosition (src/bots/base-trading-bot.ts lines 57-60):
looks up the map under positionKey market outcome.
-/
def getPosition (posMap : String → Option Position)
    (market outcome : String) : Option Position :=
  posMap (positionKey market outcome)

/-- One step of selecting the highest-price order, keeping the earlier
order on a tie (stable descending sort, first element). -/
def maxPriceStep (acc : Option Order) (o : Order) : Option Order :=
  match acc with
  | none => some o
  | some b => if b.price < o.price then some o else some b

/-- One step of selecting the lowest-price order, keeping the earlier
order on a tie (stable ascending sort, first element). -/
def minPriceStep (acc : Option Order) (o : Order) : Option Order :=
  match acc with
  | none => some o
  | some a => if o.price < a.price then some o else some a

/-- Best-bid selection under the exact-decimal semantics the spec mandates
(section 4.2: prices compared as exact decimals, never floats): sort bids
by descending price, stable on ties, and take the first element
(src/bots/base-trading-bot.ts lines 150-154, arbitrage bot lines 141-143).
The source instead compares parseFloat float64 values, which ties distinct
decimals that round to one double and then keeps the earlier, exactly
smaller bid; that divergence from this reference semantics is recorded as
a code bug under C2, C5 and C8. -/
def bestBidOf (bids : List Order) : Option Order :=
  bids.foldl maxPriceStep none

/--
Best-ask selection under the spec's exact-decimal semantics: sort asks by
ascending price, stable on ties, and take the first element
(src/bots/base-trading-bot.ts lines 155-159, arbitrage bot lines 144-146).
The source compares parseFloat float64 values here too, diverging from
this reference semantics at float-tied distinct decimal prices (recorded
under C2, C5 and C8).
-/
def bestAskOf (asks : List Order) : Option Order :=
  asks.foldl minPriceStep none

/--
BaseTradingBot.getBestPrices (src/bots/base-trading-bot.ts lines 144-170)
applied to an already-fetched order book, under the spec's exact-decimal
selection semantics: the pair of best bid and best ask prices, or none
when either side is empty (the source also maps any thrown error to null
via its catch block). It inherits the bestBidOf and bestAskOf caveat: the
source's parseFloat comparators diverge from this reference semantics at
float-tied distinct decimal prices (recorded under C5 and C8).
-/
def getBestPrices (book : OrderBook) : Option (ℚ × ℚ) :=
  match bestBidOf book.bids with
  | none => none
  | some b =>
    match bestAskOf book.asks with
    | none => none
    | some a => some (b.price, a.price)

/-- An arbitrage opportunity record, from src/types/polymarket.ts. -/
structure ArbitrageOpportunity where
  market : String
  outcome : String
  buyPrice : ℚ
  sellPrice : ℚ
  profitMargin : ℚ
  buyOrder : Order
  sellOrder : Order
deriving DecidableEq, Repr

/--
ArbitrageBot.findArbitrageOpportunity (arbitrage bot, source lines 129-191)
applied to an already-fetched order book. Returns none when either side is
empty; otherwise selects the best bid and best ask, and when bid price
strictly exceeds ask price computes margin = (bid - ask) / ask and builds
the opportunity when the margin reaches config.arbitrage.minProfitMargin.
A zero ask price makes the big.js division throw, which the catch block
maps to null, hence the explicit zero branch. Selection and the margin
comparison follow the spec's exact-decimal mandate; the source routes the
selection through parseFloat comparators and the margin through a big.js
division rounded to 20 decimal places and a toNumber float64 comparison,
divergences from this reference semantics recorded under C2 and C8.
-/
def findArbitrageOpportunity (ac : ArbitrageConfig) (marketId : String)
    (outcome : String) (book : OrderBook) : Option ArbitrageOpportunity :=
  if book.bids.length = 0 ∨ book.asks.length = 0 then none
  else
    match bestBidOf book.bids, bestAskOf book.asks with
    | some bestBid, some bestAsk =>
      if bestAsk.price < bestBid.price then
        if bestAsk.price = 0 then none
        else
          let profitMargin := (bestBid.price - bestAsk.price) / bestAsk.price
          if ac.minProfitMargin ≤ profitMargin then
            some
              { market := marketId
                outcome := outcome
                buyPrice := bestAsk.price
                sellPrice := bestBid.price
                profitMargin := profitMargin
                buyOrder := bestAsk
                sellOrder := bestBid }
          else none
      else none
    | _, _ => none

/--
The trade size used by both findArbitrageOpportunity (lines 156-161) and
executeArbitrage (lines 211-216): the minimum of the best-ask size, the
best-bid size and config.arbitrage.maxPositionSize.
-/
def arbitrageTradeSize (ac : ArbitrageConfig)
    (opp : ArbitrageOpportunity) : ℚ :=
  min (min opp.buyOrder.size opp.sellOrder.size) ac.maxPositionSize

/-- The state of the arbitrage bot that executeArbitrage reads and writes:
the de-duplication map keyed by market-outcome and the position ledger
size used by canOpenPosition. -/
structure ArbState where
  activeOpportunities : List String
  positionsCount : ℕ
deriving DecidableEq, Repr

/--
The two legs of ArbitrageBot.executeArbitrage (source lines 211-245): the
buy leg at the buy price, then the sell leg at the sell price, both sized
arbitrageTradeSize, submitted sequentially through the order gate with no
rollback. The result is the trace of orders submitted: when the buy leg
throws at the gate the exception skips the sell leg entirely.
-/
def executeArbitrageLegs (ac : ArbitrageConfig) (tc : TradingConfig)
    (accountAddress : String) (opp : ArbitrageOpportunity) :
    List CreateOrderParams :=
  let tradeSize := arbitrageTradeSize ac opp
  let buyParams : CreateOrderParams :=
    { market := opp.market, outcome := opp.outcome, side := Side.buy
      price := opp.buyPrice, size := tradeSize }
  let sellParams : CreateOrderParams :=
    { market := opp.market, outcome := opp.outcome, side := Side.sell
      price := opp.sellPrice, size := tradeSize }
  match (placeOrder tc accountAddress buyParams).1 with
  | Except.error _ => [buyParams]
  | Except.ok _ => [buyParams, sellParams]

/--
ArbitrageBot.executeArbitrage (arbitrage bot, source lines 196-263).
Returns the successor state and the trace of orders submitted to the order
gate. A key already in activeOpportunities, or a full position ledger,
returns immediately with no order. Otherwise the key is marked active, the
legs run, and the key is removed again whether the legs succeed or throw
(the catch block also deletes it), so the active set ends where it began.
-/
def executeArbitrage (ac : ArbitrageConfig) (tc : TradingConfig)
    (accountAddress : String) (st : ArbState) (opp : ArbitrageOpportunity) :
    ArbState × List CreateOrderParams :=
  let key := opp.market ++ "-" ++ opp.outcome
  if key ∈ st.activeOpportunities then (st, [])
  else if ¬ st.positionsCount < tc.maxPositions then (st, [])
  else (st, executeArbitrageLegs ac tc accountAddress opp)

/-- The recency filter of CopyTradingBot.calculateWinRate (copy-trading
bot, source lines 377-379): a trade is recent when now minus its timestamp
is strictly below seven days in milliseconds. -/
def isRecentTrade (now : ℤ) (t : Trade) : Bool :=
  now - t.timestamp < 7 * 24 * 60 * 60 * 1000

/--
CopyTradingBot.calculateWinRate (copy-trading bot, source lines 369-388):
an empty trade list gives 0, a list with no recent trade gives 0.5, and
otherwise the minimum of 0.95 and 0.5 + recentCount / 100.
-/
def calculateWinRate (now : ℤ) (trades : List Trade) : ℚ :=
  if trades.length = 0 then 0
  else
    let recentTrades := trades.filter (isRecentTrade now)
    if recentTrades.length = 0 then 1 / 2
    else min (95 / 100) (1 / 2 + (recentTrades.length : ℚ) / 100)

/--
CopyTradingBot.processTraderTrade (copy-trading bot, source lines 260-331),
up to the order submitted to placeOrder. Returns the mirrored order params
submitted, or none when the trade is skipped: win rate below the confidence
floor, the followed address not the taker, or the position cap reached.
For a mirrored trade the size is the minimum of the trader size and
config.copyTrading.maxPositionSize, and the price is the trade price plus
the default slippage for a buy and minus it for a sell.
-/
def processTraderTrade (cc : CopyTradingConfig) (tc : TradingConfig)
    (activityWinRate : ℚ) (positionsCount : ℕ) (traderAddress : String)
    (trade : Trade) : Option CreateOrderParams :=
  if activityWinRate < cc.minConfidence then none
  else
    let isTraderBuying := trade.taker = traderAddress ∧ trade.side = Side.buy
    let isTraderSelling := trade.taker = traderAddress ∧ trade.side = Side.sell
    if ¬ isTraderBuying ∧ ¬ isTraderSelling then none
    else if ¬ positionsCount < tc.maxPositions then none
    else
      let side := if isTraderBuying then Side.buy else Side.sell
      let ourSize := min trade.size cc.maxPositionSize
      let ourPrice :=
        if side = Side.buy then trade.price + tc.defaultSlippage
        else trade.price - tc.defaultSlippage
      some
        { market := trade.market
          outcome := trade.outcome
          side := side
          price := ourPrice
          size := ourSize }

/-- A concrete bid level: price 0.60, size 10 (spec section 8 scenario). -/
def sampleBidOrder : Order :=
  { id := "b1", market := "m1", outcome := "yes", side := Side.buy
    price := 3 / 5, size := 10, timestamp := 0 }

/-- A concrete ask level: price 0.55, size 8 (spec section 8 scenario). -/
def sampleAskOrder : Order :=
  { id := "a1", market := "m1", outcome := "yes", side := Side.sell
    price := 11 / 20, size := 8, timestamp := 0 }

/-- A concrete crossed order book (spec section 8 scenario). -/
def sampleBook : OrderBook :=
  { market := "m1", bids := [sampleBidOrder], asks := [sampleAskOrder] }

/-- Arbitrage config with the default minProfitMargin 0.02 and
maxPositionSize 500. -/
def sampleArbConfig : ArbitrageConfig :=
  { minProfitMargin := 1 / 50, maxPositionSize := 500 }

/-- Trading config with the defaults of src/config/config.ts. -/
def sampleTradingConfig : TradingConfig :=
  { minOrderSize := 1 / 100, maxOrderSize := 1000
    defaultSlippage := 1 / 100, maxPositions := 10 }

/-- The followed trader's trade of the spec section 8 copy-trading
scenario: buy at 0.40, size 50, taker 0xT. -/
def c6trade : Trade :=
  { id := "t1", market := "m1", outcome := "yes", side := Side.buy
    price := 2 / 5, size := 50, timestamp := 0
    taker := "0xT", maker := "0xM" }

/-- A bid whose price decimal string is 0.1. -/
def c8bid1 : Order :=
  { id := "b1", market := "m", outcome := "yes", side := Side.buy
    price := 1 / 10, size := 5, timestamp := 0 }

/-- A bid whose price decimal string is 0.10000000000000000001: a strictly
larger exact decimal than 0.1, yet parseFloat maps both strings to the
same IEEE-754 double (the difference is far below half an ulp of 0.1). -/
def c8bid2 : Order :=
  { id := "b2", market := "m", outcome := "yes", side := Side.buy
    price := 10000000000000000001 / 100000000000000000000
    size := 5, timestamp := 0 }

/-- A bid with price decimal string 0.1 and size 5, for the C2/C5 failing
input. -/
def c2bid1 : Order :=
  { id := "b1", market := "m", outcome := "yes", side := Side.buy
    price := 1 / 10, size := 5, timestamp := 0 }

/-- A bid with the strictly larger exact price 0.10000000000000000001 and
size 7. parseFloat maps its price string and 0.1 to the same IEEE-754
double, so the source's float comparator ties them and its stable sort
keeps the exactly smaller c2bid1 in front. -/
def c2bid2 : Order :=
  { id := "b2", market := "m", outcome := "yes", side := Side.buy
    price := 10000000000000000001 / 100000000000000000000
    size := 7, timestamp := 0 }

/-- An ask at price 0.05 with size 9, for the C2/C5 failing input. -/
def c2ask : Order :=
  { id := "a1", market := "m", outcome := "yes", side := Side.sell
    price := 1 / 20, size := 9, timestamp := 0 }

/-- The C2/C5 failing-input book: two bids that tie as parseFloat doubles
but differ as exact decimals, and one crossing ask. -/
def c2book : OrderBook :=
  { market := "m", bids := [c2bid1, c2bid2], asks := [c2ask] }

/-- A position for market "a-b", outcome "c": its ledger key collides with
the pair (market "a", outcome "b-c"). -/
def c9pos : Position :=
  { market := "a-b", outcome := "c", side := "yes", size := 1
    averagePrice := 1 / 2, unrealizedPnl := 0, realizedPnl := 0 }

/-- A position whose market id contains no dash. -/
def c9posDashFree : Position :=
  { market := "a", outcome := "x", side := "yes", size := 1
    averagePrice := 1 / 2, unrealizedPnl := 0, realizedPnl := 0 }

theorem maxPriceStep_spec (acc : Option Order) (o : Order) :
    ∃ c, maxPriceStep acc o = some c ∧ (c = o ∨ acc = some c) ∧
      o.price ≤ c.price ∧ ∀ a, acc = some a → a.price ≤ c.price := by
  cases acc with
  | none =>
    refine ⟨o, rfl, Or.inl rfl, le_refl _, ?_⟩
    intro a ha
    cases ha
  | some b =>
    by_cases h : b.price < o.price
    · refine ⟨o, by simp [maxPriceStep, h], Or.inl rfl, le_refl _, ?_⟩
      intro a ha
      injection ha with ha
      subst ha
      exact le_of_lt h
    · refine ⟨b, by simp [maxPriceStep, h], Or.inr rfl, le_of_not_lt h, ?_⟩
      intro a ha
      injection ha with ha
      subst ha
      exact le_refl _

theorem minPriceStep_spec (acc : Option Order) (o : Order) :
    ∃ c, minPriceStep acc o = some c ∧ (c = o ∨ acc = some c) ∧
      c.price ≤ o.price ∧ ∀ a, acc = some a → c.price ≤ a.price := by
  cases acc with
  | none =>
    refine ⟨o, rfl, Or.inl rfl, le_refl _, ?_⟩
    intro a ha
    cases ha
  | some b =>
    by_cases h : o.price < b.price
    · refine ⟨o, by simp [minPriceStep, h], Or.inl rfl, le_refl _, ?_⟩
      intro a ha
      injection ha with ha
      subst ha
      exact le_of_lt h
    · refine ⟨b, by simp [minPriceStep, h], Or.inr rfl, le_of_not_lt h, ?_⟩
      intro a ha
      injection ha with ha
      subst ha
      exact le_refl _

theorem foldl_maxPriceStep_spec (bids : List Order) :
    ∀ (acc : Option Order) (b : Order),
      bids.foldl maxPriceStep acc = some b →
      (b ∈ bids ∨ acc = some b) ∧ (∀ o ∈ bids, o.price ≤ b.price) ∧
      (∀ a, acc = some a → a.price ≤ b.price) := by
  induction bids with
  | nil =>
    intro acc b h
    simp only [List.foldl_nil] at h
    refine ⟨Or.inr h, by simp, ?_⟩
    intro a ha
    rw [ha] at h
    injection h with h
    subst h
    exact le_refl _
  | cons o rest ih =>
    intro acc b h
    rw [List.foldl_cons] at h
    obtain ⟨hmem, hmax, hacc⟩ := ih (maxPriceStep acc o) b h
    obtain ⟨c, hc, hco, hcp, hca⟩ := maxPriceStep_spec acc o
    have hcb : c.price ≤ b.price := hacc c hc
    refine ⟨?_, ?_, ?_⟩
    · rcases hmem with hmem | hmem
      · exact Or.inl (List.mem_cons_of_mem _ hmem)
      · rw [hc] at hmem
        injection hmem with hmem
        subst hmem
        rcases hco with rfl | hco
        · exact Or.inl (List.mem_cons_self _ _)
        · exact Or.inr hco
    · intro o' ho'
      rcases List.mem_cons.mp ho' with rfl | ho'
      · exact le_trans hcp hcb
      · exact hmax o' ho'
    · intro a ha
      exact le_trans (hca a ha) hcb

theorem foldl_minPriceStep_spec (asks : List Order) :
    ∀ (acc : Option Order) (b : Order),
      asks.foldl minPriceStep acc = some b →
      (b ∈ asks ∨ acc = some b) ∧ (∀ o ∈ asks, b.price ≤ o.price) ∧
      (∀ a, acc = some a → b.price ≤ a.price) := by
  induction asks with
  | nil =>
    intro acc b h
    simp only [List.foldl_nil] at h
    refine ⟨Or.inr h, by simp, ?_⟩
    intro a ha
    rw [ha] at h
    injection h with h
    subst h
    exact le_refl _
  | cons o rest ih =>
    intro acc b h
    rw [List.foldl_cons] at h
    obtain ⟨hmem, hmin, hacc⟩ := ih (minPriceStep acc o) b h
    obtain ⟨c, hc, hco, hcp, hca⟩ := minPriceStep_spec acc o
    have hcb : b.price ≤ c.price := hacc c hc
    refine ⟨?_, ?_, ?_⟩
    · rcases hmem with hmem | hmem
      · exact Or.inl (List.mem_cons_of_mem _ hmem)
      · rw [hc] at hmem
        injection hmem with hmem
        subst hmem
        rcases hco with rfl | hco
        · exact Or.inl (List.mem_cons_self _ _)
        · exact Or.inr hco
    · intro o' ho'
      rcases List.mem_cons.mp ho' with rfl | ho'
      · exact le_trans hcb hcp
      · exact hmin o' ho'
    · intro a ha
      exact le_trans hcb (hca a ha)

theorem foldl_maxPriceStep_isSome (bids : List Order) :
    ∀ acc : Option Order, acc.isSome → (bids.foldl maxPriceStep acc).isSome := by
  induction bids with
  | nil =>
    intro acc h
    simpa using h
  | cons o rest ih =>
    intro acc _
    rw [List.foldl_cons]
    obtain ⟨c, hc, _⟩ := maxPriceStep_spec acc o
    exact ih (maxPriceStep acc o) (by simp [hc])

theorem foldl_minPriceStep_isSome (asks : List Order) :
    ∀ acc : Option Order, acc.isSome → (asks.foldl minPriceStep acc).isSome := by
  induction asks with
  | nil =>
    intro acc h
    simpa using h
  | cons o rest ih =>
    intro acc _
    rw [List.foldl_cons]
    obtain ⟨c, hc, _⟩ := minPriceStep_spec acc o
    exact ih (minPriceStep acc o) (by simp [hc])

theorem bestBidOf_spec (bids : List Order) (b : Order)
    (h : bestBidOf bids = some b) :
    b ∈ bids ∧ ∀ o ∈ bids, o.price ≤ b.price := by
  obtain ⟨hmem, hmax, _⟩ := foldl_maxPriceStep_spec bids none b h
  rcases hmem with hmem | hmem
  · exact ⟨hmem, hmax⟩
  · cases hmem

theorem bestAskOf_spec (asks : List Order) (b : Order)
    (h : bestAskOf asks = some b) :
    b ∈ asks ∧ ∀ o ∈ asks, b.price ≤ o.price := by
  obtain ⟨hmem, hmin, _⟩ := foldl_minPriceStep_spec asks none b h
  rcases hmem with hmem | hmem
  · exact ⟨hmem, hmin⟩
  · cases hmem

theorem bestBidOf_isSome (bids : List Order) (h : bids ≠ []) :
    (bestBidOf bids).isSome := by
  cases bids with
  | nil => exact absurd rfl h
  | cons o rest =>
    unfold bestBidOf
    rw [List.foldl_cons]
    exact foldl_maxPriceStep_isSome rest (maxPriceStep none o)
      (by simp [maxPriceStep])

theorem bestAskOf_isSome (asks : List Order) (h : asks ≠ []) :
    (bestAskOf asks).isSome := by
  cases asks with
  | nil => exact absurd rfl h
  | cons o rest =>
    unfold bestAskOf
    rw [List.foldl_cons]
    exact foldl_minPriceStep_isSome rest (minPriceStep none o)
      (by simp [minPriceStep])

/-- The exact-decimal getBestPrices is characterised by max bid price and
min ask price; an empty side yields none and both sides non-empty yield a
value. This is the reference semantics the spec demands of the source's
getBestPrices; claim C5 records where the source's parseFloat comparator
falls short of it. -/
theorem getBestPrices_exact_spec (book : OrderBook) :
    (∀ bb ba, getBestPrices book = some (bb, ba) →
      (∃ b ∈ book.bids, b.price = bb) ∧ (∀ o ∈ book.bids, o.price ≤ bb) ∧
      (∃ a ∈ book.asks, a.price = ba) ∧ (∀ o ∈ book.asks, ba ≤ o.price)) ∧
    ((book.bids = [] ∨ book.asks = []) → getBestPrices book = none) ∧
    (book.bids ≠ [] → book.asks ≠ [] → (getBestPrices book).isSome) := by
  refine ⟨?_, ?_, ?_⟩
  · intro bb ba h
    cases hb : bestBidOf book.bids with
    | none => simp [getBestPrices, hb] at h
    | some b =>
      cases ha : bestAskOf book.asks with
      | none => simp [getBestPrices, hb, ha] at h
      | some a =>
        simp only [getBestPrices, hb, ha, Option.some.injEq, Prod.mk.injEq] at h
        obtain ⟨h1, h2⟩ := h
        subst h1
        subst h2
        obtain ⟨hbmem, hbmax⟩ := bestBidOf_spec _ _ hb
        obtain ⟨hamem, hamin⟩ := bestAskOf_spec _ _ ha
        exact ⟨⟨b, hbmem, rfl⟩, hbmax, ⟨a, hamem, rfl⟩, hamin⟩
  · intro h
    rcases h with h | h
    · have hb : bestBidOf book.bids = none := by rw [h]; rfl
      simp [getBestPrices, hb]
    · have ha : bestAskOf book.asks = none := by rw [h]; rfl
      cases hb : bestBidOf book.bids <;> simp [getBestPrices, hb, ha]
  · intro h1 h2
    obtain ⟨b, hb⟩ := Option.isSome_iff_exists.mp (bestBidOf_isSome _ h1)
    obtain ⟨a, ha⟩ := Option.isSome_iff_exists.mp (bestAskOf_isSome _ h2)
    simp [getBestPrices, hb, ha]

/-- C5: the exact-decimal best-price semantics the claim and the spec
mandate, evaluated at the failing input for the source's parseFloat
comparator. The bid prices 0.1 and 0.10000000000000000001 are distinct
exact decimals with the second strictly larger, so the mandated selection
returns the second as best bid; parseFloat maps both price strings to one
IEEE-754 double, so the source's comparator ties them and its stable sort
returns the exactly smaller 0.1 bid instead. The empty-side half of the
claim does hold of the source: an empty side yields none, never an
error. -/
theorem C5_exact_best_prices_at_failing_input :
    getBestPrices c2book = some (c2bid2.price, c2ask.price) ∧
    c2bid1.price < c2bid2.price ∧
    getBestPrices { market := "m", bids := [], asks := [c2ask] } = none := by
  have h1 : bestBidOf c2book.bids = some c2bid2 := by
    show (if c2bid1.price < c2bid2.price then some c2bid2 else some c2bid1)
      = some c2bid2
    rw [if_pos]
    norm_num [c2bid1, c2bid2]
  refine ⟨?_, by norm_num [c2bid1, c2bid2], rfl⟩
  simp only [getBestPrices, h1]
  rfl

/-- C1: placeOrder forwards the candidate order to the API order-creation
call iff minOrderSize is at most the size, the size is at most
maxOrderSize, and the price lies in the closed interval from 0 to 1; any
bound violation throws an error and issues no API call at all, so
createOrder is never invoked on rejection. -/
theorem C1_placeOrder_gate (tc : TradingConfig) (addr : String)
    (p : CreateOrderParams) :
    (ApiCall.createOrder p ∈ (placeOrder tc addr p).2 ↔
      tc.minOrderSize ≤ p.size ∧ p.size ≤ tc.maxOrderSize ∧
        0 ≤ p.price ∧ p.price ≤ 1) ∧
    (¬ (tc.minOrderSize ≤ p.size ∧ p.size ≤ tc.maxOrderSize ∧
        0 ≤ p.price ∧ p.price ≤ 1) →
      (∃ e, (placeOrder tc addr p).1 = Except.error e) ∧
        (placeOrder tc addr p).2 = []) := by
  unfold placeOrder
  split_ifs with h1 h2 h3
  · constructor
    · simp only [List.not_mem_nil, false_iff]
      intro ⟨hmin, _⟩
      exact absurd h1 (not_lt.mpr hmin)
    · exact fun _ => ⟨⟨_, rfl⟩, rfl⟩
  · constructor
    · simp only [List.not_mem_nil, false_iff]
      intro ⟨_, hmax, _⟩
      exact absurd h2 (not_lt.mpr hmax)
    · exact fun _ => ⟨⟨_, rfl⟩, rfl⟩
  · constructor
    · simp only [List.not_mem_nil, false_iff]
      intro ⟨_, _, hlo, hhi⟩
      rcases h3 with h3 | h3
      · exact absurd h3 (not_lt.mpr hlo)
      · exact absurd h3 (not_lt.mpr hhi)
    · exact fun _ => ⟨⟨_, rfl⟩, rfl⟩
  · rw [not_or] at h3
    have hb : tc.minOrderSize ≤ p.size ∧ p.size ≤ tc.maxOrderSize ∧
        0 ≤ p.price ∧ p.price ≤ 1 :=
      ⟨not_lt.mp h1, not_lt.mp h2, not_lt.mp h3.1, not_lt.mp h3.2⟩
    constructor
    · exact iff_of_true (List.mem_cons_self _ _) hb
    · exact fun hc => absurd hb hc

/-- C1 witness: the gate accepts a size-8 order at price 0.55 under the
default bounds and forwards it to createOrder. -/
theorem C1_placeOrder_gate_witness :
    ApiCall.createOrder
        { market := "m1", outcome := "yes", side := Side.buy
          price := 11 / 20, size := 8 }
      ∈ (placeOrder sampleTradingConfig "0xA"
          { market := "m1", outcome := "yes", side := Side.buy
            price := 11 / 20, size := 8 }).2 :=
  (C1_placeOrder_gate sampleTradingConfig "0xA"
      { market := "m1", outcome := "yes", side := Side.buy
        price := 11 / 20, size := 8 }).1.mpr
    (by norm_num [sampleTradingConfig])

/-- C3: calculateWinRate returns 0 on an empty trade list, 0.5 when the
list is non-empty but no trade is within the last 7 days, and otherwise
the minimum of 0.95 and 0.5 + n/100 where n is the recent-trade count; on
that branch the value is monotone non-decreasing in n, and the result
never exceeds 0.95. -/
theorem C3_calculateWinRate_spec (now : ℤ) (trades : List Trade) :
    (trades = [] → calculateWinRate now trades = 0) ∧
    (trades ≠ [] → trades.filter (isRecentTrade now) = [] →
      calculateWinRate now trades = 1 / 2) ∧
    (∀ n : ℕ, (trades.filter (isRecentTrade now)).length = n → 0 < n →
      calculateWinRate now trades = min (95 / 100) (1 / 2 + (n : ℚ) / 100)) ∧
    (∀ m n : ℕ, m ≤ n →
      min ((95 : ℚ) / 100) (1 / 2 + (m : ℚ) / 100) ≤
        min ((95 : ℚ) / 100) (1 / 2 + (n : ℚ) / 100)) ∧
    calculateWinRate now trades ≤ 95 / 100 := by
  have hmono : ∀ m n : ℕ, m ≤ n →
      min ((95 : ℚ) / 100) (1 / 2 + (m : ℚ) / 100) ≤
        min ((95 : ℚ) / 100) (1 / 2 + (n : ℚ) / 100) := by
    intro m n hmn
    apply min_le_min le_rfl
    have hc : (m : ℚ) ≤ (n : ℚ) := Nat.cast_le.mpr hmn
    linarith
  refine ⟨?_, ?_, ?_, hmono, ?_⟩
  · intro h
    subst h
    rfl
  · intro hne hfil
    have hl : trades.length ≠ 0 := by simpa using hne
    simp [calculateWinRate, hl, hfil]
  · intro n hlen hn
    have hne : trades.length ≠ 0 := by
      intro h
      rw [List.length_eq_zero] at h
      subst h
      simp at hlen
      omega
    simp only [calculateWinRate, if_neg hne, hlen, if_neg hn.ne']
  · by_cases h1 : trades.length = 0
    · simp only [calculateWinRate, if_pos h1]
      norm_num
    · by_cases h2 : (trades.filter (isRecentTrade now)).length = 0
      · simp only [calculateWinRate, if_neg h1, if_pos h2]
        norm_num
      · simp only [calculateWinRate, if_neg h1, if_neg h2]
        exact min_le_left _ _

/-- C3 witness: no trades at all gives win rate 0. -/
theorem C3_calculateWinRate_witness :
    calculateWinRate 0 [] = 0 :=
  (C3_calculateWinRate_spec 0 []).1 rfl

/-- C4: processTraderTrade mirrors a trade only when the followed address
is the taker: whenever the followed address is not the taker (in
particular when it appears only as maker), no order is submitted. -/
theorem C4_processTraderTrade_taker_only (cc : CopyTradingConfig)
    (tc : TradingConfig) (wr : ℚ) (n : ℕ) (addr : String) (trade : Trade)
    (h : trade.taker ≠ addr) :
    processTraderTrade cc tc wr n addr trade = none := by
  simp [processTraderTrade, h]

/-- C4 witness: a trade where the followed address 0xF is only the maker
(taker 0xO) produces no mirrored order. -/
theorem C4_processTraderTrade_taker_only_witness :
    ({ id := "t2", market := "m1", outcome := "yes", side := Side.buy
       price := 2 / 5, size := 50, timestamp := 0
       taker := "0xO", maker := "0xF" } : Trade).taker ≠ "0xF" ∧
    processTraderTrade { minConfidence := 3 / 5, maxPositionSize := 20 }
        sampleTradingConfig 1 0 "0xF"
        { id := "t2", market := "m1", outcome := "yes", side := Side.buy
          price := 2 / 5, size := 50, timestamp := 0
          taker := "0xO", maker := "0xF" } = none :=
  ⟨by decide,
    C4_processTraderTrade_taker_only
      { minConfidence := 3 / 5, maxPositionSize := 20 }
      sampleTradingConfig 1 0 "0xF"
      { id := "t2", market := "m1", outcome := "yes", side := Side.buy
        price := 2 / 5, size := 50, timestamp := 0
        taker := "0xO", maker := "0xF" } (by decide)⟩

/-- C6: for the section 8 scenario trade (buy at 0.40, size 50, taker 0xT)
with default slippage 0.01 and copy-trading position cap 20, whenever the
win rate is not below the confidence floor and the position cap is not
reached, the mirrored order is a buy at 0.41 of size 20. -/
theorem C6_copy_trade_example (minConf wr : ℚ) (n maxPos : ℕ)
    (hwr : ¬ wr < minConf) (hn : n < maxPos) :
    processTraderTrade { minConfidence := minConf, maxPositionSize := 20 }
        { minOrderSize := 1 / 100, maxOrderSize := 1000
          defaultSlippage := 1 / 100, maxPositions := maxPos }
        wr n "0xT" c6trade =
      some { market := "m1", outcome := "yes", side := Side.buy
             price := 41 / 100, size := 20 } := by
  unfold processTraderTrade
  rw [if_neg hwr]
  have hbuy : c6trade.taker = "0xT" ∧ c6trade.side = Side.buy :=
    ⟨rfl, rfl⟩
  rw [if_neg (by simp [hbuy.1, hbuy.2])]
  rw [if_neg (by simpa using hn)]
  simp only [c6trade, hbuy.1, hbuy.2, and_self, if_pos]
  norm_num

/-- C6 witness: with win rate 0.6 meeting the floor 0.6 and zero of ten
positions open, the mirrored order is exactly buy 0.41 size 20. -/
theorem C6_copy_trade_example_witness :
    ¬ (3 / 5 : ℚ) < 3 / 5 ∧ (0 : ℕ) < 10 ∧
    processTraderTrade { minConfidence := 3 / 5, maxPositionSize := 20 }
        { minOrderSize := 1 / 100, maxOrderSize := 1000
          defaultSlippage := 1 / 100, maxPositions := 10 }
        (3 / 5) 0 "0xT" c6trade =
      some { market := "m1", outcome := "yes", side := Side.buy
             price := 41 / 100, size := 20 } :=
  ⟨by norm_num, by norm_num,
    C6_copy_trade_example (3 / 5) (3 / 5) 0 10 (by norm_num) (by norm_num)⟩

/-- C7: while an opportunity key market-outcome is already in the
active-opportunities set, executeArbitrage for the same key returns
immediately with the state unchanged and no order placed: the duplicate is
dropped, not queued. -/
theorem C7_executeArbitrage_dedup (ac : ArbitrageConfig)
    (tc : TradingConfig) (addr : String) (st : ArbState)
    (opp : ArbitrageOpportunity)
    (h : opp.market ++ "-" ++ opp.outcome ∈ st.activeOpportunities) :
    executeArbitrage ac tc addr st opp = (st, []) := by
  unfold executeArbitrage
  rw [if_pos h]

/-- C7 witness: with the key m1-yes already active, a second execution for
market m1 outcome yes places nothing and leaves the state unchanged. -/
theorem C7_executeArbitrage_dedup_witness :
    ("m1" ++ "-" ++ "yes")
      ∈ (⟨["m1-yes"], 0⟩ : ArbState).activeOpportunities ∧
    executeArbitrage sampleArbConfig sampleTradingConfig "0xA"
        ⟨["m1-yes"], 0⟩
        { market := "m1", outcome := "yes", buyPrice := 11 / 20
          sellPrice := 3 / 5, profitMargin := 1 / 11
          buyOrder := sampleAskOrder, sellOrder := sampleBidOrder } =
      (⟨["m1-yes"], 0⟩, []) :=
  ⟨by decide,
    C7_executeArbitrage_dedup sampleArbConfig sampleTradingConfig "0xA"
      ⟨["m1-yes"], 0⟩
      { market := "m1", outcome := "yes", buyPrice := 11 / 20
        sellPrice := 3 / 5, profitMargin := 1 / 11
        buyOrder := sampleAskOrder, sellOrder := sampleBidOrder }
      (by decide)⟩

/-- C10: refreshPositions is atomic on failure: a failed fetch propagates
the error and leaves the position map exactly as it was, while a
successful fetch replaces the map wholesale. -/
theorem C10_refreshPositions_atomic (oldMap : String → Option Position) :
    (∀ e, refreshPositions (Except.error e) oldMap
      = (Except.error e, oldMap)) ∧
    (∀ ps, refreshPositions (Except.ok ps) oldMap
      = (Except.ok (), buildPositionMap ps)) :=
  ⟨fun _ => rfl, fun _ => rfl⟩

theorem sep_append_inj (c : Char) :
    ∀ (l1 l2 r1 r2 : List Char), c ∉ l1 → c ∉ l2 →
      l1 ++ c :: r1 = l2 ++ c :: r2 → l1 = l2 ∧ r1 = r2 := by
  intro l1
  induction l1 with
  | nil =>
    intro l2 r1 r2 h1 h2 h
    cases l2 with
    | nil =>
      simp only [List.nil_append, List.cons.injEq] at h
      exact ⟨rfl, h.2⟩
    | cons x t =>
      simp only [List.nil_append, List.cons_append, List.cons.injEq] at h
      exact absurd (h.1 ▸ List.mem_cons_self x t) h2
  | cons y t ih =>
    intro l2 r1 r2 h1 h2 h
    cases l2 with
    | nil =>
      simp only [List.cons_append, List.nil_append, List.cons.injEq] at h
      exact absurd (h.1 ▸ List.mem_cons_self y t) h1
    | cons x t2 =>
      simp only [List.cons_append, List.cons.injEq] at h
      obtain ⟨hyx, ht⟩ := h
      have hrec := ih t2 r1 r2
        (fun hc => h1 (List.mem_cons_of_mem _ hc))
        (fun hc => h2 (List.mem_cons_of_mem _ hc)) ht
      exact ⟨by rw [hyx, hrec.1], hrec.2⟩

theorem positionKey_data (m o : String) :
    (positionKey m o).data = m.data ++ '-' :: o.data := by
  show ((m ++ "-") ++ o).data = m.data ++ '-' :: o.data
  rw [String.data_append, String.data_append]
  rw [show ("-" : String).data = ['-'] from rfl, List.append_assoc]
  rfl

theorem positionKey_inj {m1 o1 m2 o2 : String}
    (hm1 : '-' ∉ m1.data) (hm2 : '-' ∉ m2.data)
    (h : positionKey m1 o1 = positionKey m2 o2) : m1 = m2 ∧ o1 = o2 := by
  have hd := congrArg String.data h
  rw [positionKey_data, positionKey_data] at hd
  obtain ⟨h1, h2⟩ :=
    sep_append_inj '-' m1.data m2.data o1.data o2.data hm1 hm2 hd
  exact ⟨String.ext h1, String.ext h2⟩

theorem foldl_positionMapStep_lookup (ps : List Position) :
    ∀ (acc : String → Option Position) (k : String) (p : Position),
      ps.foldl positionMapStep acc k = some p →
      (k = positionKey p.market p.outcome ∧ p ∈ ps) ∨ acc k = some p := by
  induction ps with
  | nil =>
    intro acc k p h
    simp only [List.foldl_nil] at h
    exact Or.inr h
  | cons q rest ih =>
    intro acc k p h
    rw [List.foldl_cons] at h
    rcases ih (positionMapStep acc q) k p h with ⟨hk, hmem⟩ | hacc
    · exact Or.inl ⟨hk, List.mem_cons_of_mem _ hmem⟩
    · unfold positionMapStep at hacc
      by_cases hkq : k = positionKey q.market q.outcome
      · rw [if_pos hkq] at hacc
        injection hacc with hacc
        subst hacc
        exact Or.inl ⟨hkq, List.mem_cons_self _ _⟩
      · rw [if_neg hkq] at hacc
        exact Or.inr hacc

/-- C9 counterexample: the ledger key is market ++ "-" ++ outcome, which
is not injective on pairs: the distinct pairs (market "a-b", outcome "c")
and (market "a", outcome "b-c") collide, and a ledger holding a position
for the first pair answers getPosition for the second pair with it. -/
theorem C9_positionKey_collision :
    positionKey "a-b" "c" = positionKey "a" "b-c" ∧
    ("a-b", "c") ≠ (("a", "b-c") : String × String) ∧
    getPosition (buildPositionMap [c9pos]) "a" "b-c" = some c9pos := by
  refine ⟨by decide, by decide, ?_⟩
  rfl

/-- C9 amended: restricted to market identifiers that contain no dash
character, ledger keys of distinct pairs are distinct, and getPosition
for such a market returns only a position carrying exactly that market
and outcome. -/
theorem C9_positionKey_unique_amended (m1 o1 m2 o2 : String)
    (ps : List Position)
    (hm1 : '-' ∉ m1.data) (hm2 : '-' ∉ m2.data)
    (hps : ∀ q ∈ ps, '-' ∉ q.market.data)
    (hne : (m1, o1) ≠ (m2, o2)) :
    positionKey m1 o1 ≠ positionKey m2 o2 ∧
    ∀ p, getPosition (buildPositionMap ps) m1 o1 = some p →
      p.market = m1 ∧ p.outcome = o1 := by
  constructor
  · intro h
    obtain ⟨h1, h2⟩ := positionKey_inj hm1 hm2 h
    exact hne (by rw [h1, h2])
  · intro p hp
    unfold getPosition buildPositionMap at hp
    rcases foldl_positionMapStep_lookup ps _ _ _ hp with ⟨hk, hmem⟩ | hacc
    · obtain ⟨h1, h2⟩ := positionKey_inj hm1 (hps p hmem) hk
      exact ⟨h1.symm, h2.symm⟩
    · cases hacc

/-- C9 witness: for the dash-free pairs (a, x) and (b, y) the keys differ,
and a ledger holding one position for (a, x) answers getPosition (a, x)
only with a position for exactly that pair. -/
theorem C9_positionKey_unique_amended_witness :
    '-' ∉ ("a" : String).data ∧ '-' ∉ ("b" : String).data ∧
    (∀ q ∈ [c9posDashFree], '-' ∉ q.market.data) ∧
    (("a", "x") : String × String) ≠ ("b", "y") ∧
    positionKey "a" "x" ≠ positionKey "b" "y" ∧
    (∀ p, getPosition (buildPositionMap [c9posDashFree]) "a" "x" = some p →
      p.market = "a" ∧ p.outcome = "x") :=
  ⟨by decide, by decide, by decide, by decide,
    (C9_positionKey_unique_amended "a" "x" "b" "y" [c9posDashFree]
      (by decide) (by decide) (by decide) (by decide)).1,
    (C9_positionKey_unique_amended "a" "x" "b" "y" [c9posDashFree]
      (by decide) (by decide) (by decide) (by decide)).2⟩

theorem executeArbitrageLegs_size (ac : ArbitrageConfig)
    (tc : TradingConfig) (addr : String) (opp : ArbitrageOpportunity) :
    ∀ q ∈ executeArbitrageLegs ac tc addr opp,
      q.size = arbitrageTradeSize ac opp := by
  intro q hq
  simp only [executeArbitrageLegs] at hq
  split at hq
  · rw [List.mem_singleton] at hq
    subst hq
    rfl
  · rcases List.mem_cons.mp hq with rfl | hq2
    · rfl
    · rw [List.mem_singleton] at hq2
      subst hq2
      rfl

theorem executeArbitrage_size (ac : ArbitrageConfig) (tc : TradingConfig)
    (addr : String) (st : ArbState) (opp : ArbitrageOpportunity) :
    ∀ q ∈ (executeArbitrage ac tc addr st opp).2,
      q.size = arbitrageTradeSize ac opp := by
  intro q hq
  simp only [executeArbitrage] at hq
  split_ifs at hq
  · simp at hq
  · exact executeArbitrageLegs_size ac tc addr opp q hq
  · simp at hq

/-- The exact-decimal findArbitrageOpportunity characterised on books with
both sides non-empty and positive ask prices: an opportunity exists iff
the maximal bid price strictly exceeds the minimal ask price and the
exact margin (bid - ask) / ask reaches minProfitMargin; it buys at the
best ask, sells at the best bid, and every order executeArbitrage submits
for it has size min(best-bid size, best-ask size, maxPositionSize). This
is the reference semantics the spec demands; claim C2 records where the
source's parseFloat selection and toNumber margin compare fall short. -/
theorem findArbitrageOpportunity_exact_spec (ac : ArbitrageConfig)
    (marketId outcome : String) (book : OrderBook)
    (hb : book.bids ≠ []) (ha : book.asks ≠ [])
    (hpos : ∀ o ∈ book.asks, 0 < o.price) :
    ∃ bb ba, bestBidOf book.bids = some bb ∧ bestAskOf book.asks = some ba ∧
      bb ∈ book.bids ∧ ba ∈ book.asks ∧
      (∀ o ∈ book.bids, o.price ≤ bb.price) ∧
      (∀ o ∈ book.asks, ba.price ≤ o.price) ∧
      ((findArbitrageOpportunity ac marketId outcome book).isSome ↔
        ba.price < bb.price ∧
          ac.minProfitMargin ≤ (bb.price - ba.price) / ba.price) ∧
      (∀ opp, findArbitrageOpportunity ac marketId outcome book = some opp →
        opp.buyPrice = ba.price ∧ opp.sellPrice = bb.price ∧
        ∀ tc addr st q, q ∈ (executeArbitrage ac tc addr st opp).2 →
          q.size = min (min bb.size ba.size) ac.maxPositionSize) := by
  obtain ⟨bb, hbb⟩ := Option.isSome_iff_exists.mp (bestBidOf_isSome _ hb)
  obtain ⟨ba, hba⟩ := Option.isSome_iff_exists.mp (bestAskOf_isSome _ ha)
  obtain ⟨hbbmem, hbbmax⟩ := bestBidOf_spec _ _ hbb
  obtain ⟨hbamem, hbamin⟩ := bestAskOf_spec _ _ hba
  have hbane : ba.price ≠ 0 := ne_of_gt (hpos ba hbamem)
  have hlen : ¬ (book.bids.length = 0 ∨ book.asks.length = 0) := by
    rw [not_or, List.length_eq_zero, List.length_eq_zero]
    exact ⟨hb, ha⟩
  have heq : findArbitrageOpportunity ac marketId outcome book =
      (if ba.price < bb.price then
        (if ac.minProfitMargin ≤ (bb.price - ba.price) / ba.price then
          some
            { market := marketId
              outcome := outcome
              buyPrice := ba.price
              sellPrice := bb.price
              profitMargin := (bb.price - ba.price) / ba.price
              buyOrder := ba
              sellOrder := bb }
         else none)
       else none) := by
    simp only [findArbitrageOpportunity, if_neg hlen, hbb, hba,
      if_neg hbane]
  refine ⟨bb, ba, hbb, hba, hbbmem, hbamem, hbbmax, hbamin, ?_, ?_⟩
  · rw [heq]
    split_ifs with h1 h2
    · simp [h1, h2]
    · simp [h1, h2]
    · simp [h1]
  · intro opp hopp
    rw [heq] at hopp
    split_ifs at hopp with h1 h2
    · injection hopp with hopp
      subst hopp
      refine ⟨rfl, rfl, ?_⟩
      intro tc addr st q hq
      rw [executeArbitrage_size ac tc addr st _ q hq]
      show min (min ba.size bb.size) ac.maxPositionSize
        = min (min bb.size ba.size) ac.maxPositionSize
      rw [min_comm ba.size bb.size]

/-- C2: the exact-decimal arbitrage semantics the claim and the spec
mandate, evaluated at the failing input for the source's float
shortcuts. The mandated selection takes the strictly larger
0.10000000000000000001 bid (size 7) as the sell side, so the opportunity
sells at that price and the executed size is min(7, 9, 500) = 7; the
source's parseFloat comparator ties the two bid price strings (one
IEEE-754 double), its stable sort keeps the exactly smaller 0.1 bid, and
it builds the opportunity with sell price 0.1 and size min(5, 9, 500) =
5, additionally rounding the margin through Big.div (20 decimal places)
and toNumber float64 before the threshold compare. -/
theorem C2_exact_model_at_failing_input :
    findArbitrageOpportunity sampleArbConfig "m" "yes" c2book =
      some { market := "m", outcome := "yes"
             buyPrice := c2ask.price, sellPrice := c2bid2.price
             profitMargin := (c2bid2.price - c2ask.price) / c2ask.price
             buyOrder := c2ask, sellOrder := c2bid2 } ∧
    c2bid1.price < c2bid2.price ∧
    min (min c2bid2.size c2ask.size) sampleArbConfig.maxPositionSize = 7 ∧
    min (min c2bid1.size c2ask.size) sampleArbConfig.maxPositionSize = 5 := by
  have h1 : bestBidOf c2book.bids = some c2bid2 := by
    show (if c2bid1.price < c2bid2.price then some c2bid2 else some c2bid1)
      = some c2bid2
    rw [if_pos]
    norm_num [c2bid1, c2bid2]
  have h2 : bestAskOf c2book.asks = some c2ask := rfl
  have hlen : ¬ (c2book.bids.length = 0 ∨ c2book.asks.length = 0) := by
    decide
  refine ⟨?_, by norm_num [c2bid1, c2bid2],
    by norm_num [c2bid2, c2ask, sampleArbConfig, min_def],
    by norm_num [c2bid1, c2ask, sampleArbConfig, min_def]⟩
  simp only [findArbitrageOpportunity, if_neg hlen, h1, h2]
  rw [if_pos (show c2ask.price < c2bid2.price by norm_num [c2ask, c2bid2])]
  rw [if_neg (show ¬ c2ask.price = 0 by norm_num [c2ask])]
  rw [if_pos (show sampleArbConfig.minProfitMargin ≤
    (c2bid2.price - c2ask.price) / c2ask.price by
      norm_num [sampleArbConfig, c2ask, c2bid2])]

/-- C8: the exact-decimal semantics the spec mandates, evaluated at the
failing input for the source's floating-point shortcut. The two bid
prices 0.1 and 0.10000000000000000001 are distinct exact decimals (the
second strictly larger, so exact selection returns the second), yet
parseFloat maps both strings to the same IEEE-754 double, so the source's
parseFloat-based sort comparator sees them as equal and its stable sort
leaves the strictly smaller first bid in front. -/
theorem C8_exact_decimal_selection_at_failing_input :
    bestBidOf [c8bid1, c8bid2] = some c8bid2 ∧
    c8bid1.price < c8bid2.price := by
  constructor
  · show (if c8bid1.price < c8bid2.price then some c8bid2 else some c8bid1)
      = some c8bid2
    rw [if_pos]
    norm_num [c8bid1, c8bid2]
  · norm_num [c8bid1, c8bid2]

end PolymarketBot
